import Mathlib

/-!
Shallow embedding of the winet2 register-definition compiler:
`tools/modbus-discovery/build_modbus_definitions.py` and
`tools/modbus-discovery/build_register_defaults.py`.

Python strings are modelled as Lean `String` (lists of unicode characters);
Python `int` as `Int`; Python `float` as `Rat` (the scripts only construct
floats from decimal literals and compare them for equality, so exact
rationals are a faithful shallow model); Python dicts that the scripts use
as insertion-ordered mappings are modelled as association lists with the
dict update semantics (update-in-place for an existing key, append for a
new key).
-/

namespace Winet2

/-! ### Models of the Python string primitives used by the scripts -/

/-- ASCII whitespace stripped by Python `str.strip()` (the inputs the
scripts handle are ASCII-spaced; the model covers the ASCII whitespace
class). -/
def isPyWs (c : Char) : Bool :=
  c == ' ' || c == '\t' || c == '\n' || c == '\r' || c == '\x0b' || c == '\x0c'

/-- Model of Python `str.lower()` on a single character: ASCII letters are
lowered, and the one non-ASCII cased character appearing in the scripts'
data, `Ω` (U+03A9), lowers to `ω` (U+03C9) exactly as in Python; all other
characters are fixed. -/
def pyLowerChar (c : Char) : Char :=
  if 65 ≤ c.toNat ∧ c.toNat ≤ 90 then Char.ofNat (c.toNat + 32)
  else if c = 'Ω' then 'ω'
  else c

/-- Model of Python `str.upper()` on a single character (ASCII). -/
def pyUpperChar (c : Char) : Char :=
  if 97 ≤ c.toNat ∧ c.toNat ≤ 122 then Char.ofNat (c.toNat - 32) else c

/-- Strip leading and trailing characters satisfying `p`. -/
def stripWith (p : Char → Bool) (cs : List Char) : List Char :=
  ((cs.dropWhile p).reverse.dropWhile p).reverse

/-- Model of Python `str.strip()`. -/
def pyStrip (s : String) : String := ⟨stripWith isPyWs s.data⟩

/-- Model of Python `str.lower()`. -/
def pyStrLower (s : String) : String := ⟨s.data.map pyLowerChar⟩

/-- Model of Python `str.upper()`. -/
def pyStrUpper (s : String) : String := ⟨s.data.map pyUpperChar⟩

def isAsciiAlpha (c : Char) : Bool :=
  decide ((65 ≤ c.toNat ∧ c.toNat ≤ 90) ∨ (97 ≤ c.toNat ∧ c.toNat ≤ 122))

/-- Helper for `pyTitle`: the flag records whether the previous character
was alphabetic. -/
def pyTitleAux : Bool → List Char → List Char
  | _, [] => []
  | prev, c :: rest =>
    (if isAsciiAlpha c then (if prev then pyLowerChar c else pyUpperChar c) else c)
      :: pyTitleAux (isAsciiAlpha c) rest

/-- Model of Python `str.title()` on ASCII text: the first letter of each
alphabetic run is uppercased, the rest lowercased. -/
def pyTitle (s : String) : String := ⟨pyTitleAux false s.data⟩

def isDigitChar (c : Char) : Bool := decide (48 ≤ c.toNat ∧ c.toNat ≤ 57)

def digitVal (c : Char) : Nat := c.toNat - 48

def digitsToNat (cs : List Char) : Nat :=
  cs.foldl (fun acc c => acc * 10 + digitVal c) 0

/-- Parse a non-empty all-digit character list. -/
def parseDigits (cs : List Char) : Option Nat :=
  if cs ≠ [] ∧ cs.all isDigitChar then some (digitsToNat cs) else none

/-- Model of Python `int(s)`: surrounding whitespace and an optional sign
followed by decimal digits (the underscore digit-grouping Python also
accepts never appears in the vendor tables). `ValueError` is `none`. -/
def pyParseInt (s : String) : Option Int :=
  match stripWith isPyWs s.data with
  | '+' :: ds => (parseDigits ds).map (fun n => (n : Int))
  | '-' :: ds => (parseDigits ds).map (fun n => -(n : Int))
  | ds => (parseDigits ds).map (fun n => (n : Int))

/-- Parse an unsigned decimal literal `digits`, `digits.digits`,
`digits.` or `.digits` as an exact rational. -/
def parseUnsignedDec (cs : List Char) : Option Rat :=
  let intPart := cs.takeWhile isDigitChar
  match cs.dropWhile isDigitChar with
  | [] => if intPart = [] then none else some ((digitsToNat intPart : Nat) : Rat)
  | '.' :: frac =>
    if frac.all isDigitChar ∧ (intPart ≠ [] ∨ frac ≠ []) then
      some (((digitsToNat intPart : Nat) : Rat)
        + ((digitsToNat frac : Nat) : Rat) / ((10 : Rat) ^ frac.length))
    else none
  | _ => none

/-- Model of Python `float(s)` restricted to the decimal literals the
vendor tables contain (no exponent, infinity or nan forms). `ValueError`
is `none`. -/
def pyParseFloat (s : String) : Option Rat :=
  match stripWith isPyWs s.data with
  | '+' :: ds => parseUnsignedDec ds
  | '-' :: ds => (parseUnsignedDec ds).map (fun q => -q)
  | ds => parseUnsignedDec ds

/-- Lexicographic order on character lists by code point: this is both
Python's `str` comparison (used by `sorted`) and Lean's string order. -/
def lexLeChars : List Char → List Char → Bool
  | [], _ => true
  | _ :: _, [] => false
  | a :: as, b :: bs => if a = b then lexLeChars as bs else decide (a < b)

def isPrefixChars : List Char → List Char → Bool
  | [], _ => true
  | _ :: _, [] => false
  | a :: as, b :: bs => a == b && isPrefixChars as bs

/-- Model of Python `sub in s` substring membership. -/
def containsChars (sub : List Char) : List Char → Bool
  | [] => isPrefixChars sub []
  | c :: rest => isPrefixChars sub (c :: rest) || containsChars sub rest

/-! ### build_modbus_definitions.py — constant tables -/

/-- `NUMERIC_TYPES`: vendor type tag to `(semantic type, default word
count)`. -/
def NUMERIC_TYPES (tag : String) : Option (String × Int) :=
  if tag = "U16" then some ("uint16", 1)
  else if tag = "S16" then some ("int16", 1)
  else if tag = "U32" then some ("uint32", 2)
  else if tag = "S32" then some ("int32", 2)
  else if tag = "U64" then some ("uint64", 4)
  else if tag = "IEEE754" then some ("float32", 2)
  else if tag = "FLOAT" then some ("float32", 2)
  else none

/-- `UNIT_CATEGORY` as an association list in source order (a Python dict
with unique keys; first-match lookup is therefore dict lookup). -/
def UNIT_CATEGORY : List (String × String) :=
  [("v", "voltage"), ("kv", "voltage"),
   ("a", "current"), ("ka", "current"),
   ("hz", "frequency"),
   ("kwh", "energy"), ("wh", "energy"), ("mwh", "energy"),
   ("kw", "power"), ("w", "power"),
   ("kvar", "reactive_power"), ("kvarh", "reactive_energy"),
   ("kva", "apparent_power"),
   ("percent", "percentage"), ("%", "percentage"),
   ("℃", "temperature"), ("c", "temperature"),
   ("kΩ", "resistance"), ("kohm", "resistance")]

def lookupStr : List (String × String) → String → Option String
  | [], _ => none
  | p :: rest, key => if key = p.1 then some p.2 else lookupStr rest key

/-- `sanitise_metric_id`: strip, lower, spaces and hyphens to `_`, drop
characters outside `[a-z0-9_]`, collapse `_` runs, strip `_`. -/
def isIdChar (c : Char) : Bool :=
  decide ((97 ≤ c.toNat ∧ c.toNat ≤ 122) ∨ (48 ≤ c.toNat ∧ c.toNat ≤ 57) ∨ c = '_')

def replaceSepChar (c : Char) : Char := if c = ' ' ∨ c = '-' then '_' else c

/-- Model of `re.sub(r"_+", "_", s)`: collapse each run of underscores to
a single underscore. -/
def collapseU : List Char → List Char
  | [] => []
  | [c] => [c]
  | a :: b :: rest =>
    if a = '_' ∧ b = '_' then collapseU (b :: rest) else a :: collapseU (b :: rest)

/-- Model of `s.strip("_")`. -/
def stripU (cs : List Char) : List Char := stripWith (· == '_') cs

def sanitiseChars (cs : List Char) : List Char :=
  stripU (collapseU ((((stripWith isPyWs cs).map pyLowerChar).map replaceSepChar).filter isIdChar))

def sanitise_metric_id (s : String) : String := ⟨sanitiseChars s.data⟩

/-- Character class of the `base_unit` regex `([a-zA-ZΩ%℃]+)$`. -/
def isUnitChar (c : Char) : Bool := isAsciiAlpha c || c == 'Ω' || c == '%' || c == '℃'

/-- `base_unit`: empty input gives `""`; otherwise the maximal trailing
run of unit characters when it is non-empty (the match of the anchored
regex), else the input unchanged. -/
def base_unit (u : String) : String :=
  if u = "" then ""
  else
    let run := (u.data.reverse.takeWhile isUnitChar).reverse
    if run = [] then u else ⟨run⟩

/-- `classify_unit`: lower-case the unit and look it up in
`UNIT_CATEGORY`. -/
def classify_unit (u : String) : Option String := lookupStr UNIT_CATEGORY (pyStrLower u)

/-- `SPECIAL_DISCOVERY` / `DISCOVERY_BY_CATEGORY` entry shape. -/
structure Discovery where
  method : String
  prompt : Option String := none
  input_unit : Option String := none
  expected_range : Option (Int × Int) := none
  tolerance_watts : Option Int := none
  tolerance : Option (Rat × Rat) := none
deriving DecidableEq, Repr

def DISCOVERY_BY_CATEGORY (category : String) : Option Discovery :=
  if category = "power" then some { method := "power" }
  else if category = "energy" then some { method := "energy" }
  else if category = "voltage" then some { method := "voltage" }
  else if category = "current" then some { method := "current" }
  else if category = "frequency" then some { method := "frequency" }
  else none

def SPECIAL_DISCOVERY (mid : String) : Option Discovery :=
  if mid = "meter_power" then
    some { method := "power",
           prompt := some "Meter Active Power (kW) [press Enter to skip]: ",
           input_unit := some "kW",
           expected_range := some (-20000, 20000),
           tolerance_watts := some 1500 }
  else if mid = "grid_import_energy" then
    some { method := "energy",
           prompt := some "Forward Active Energy (MWh) [press Enter to skip]: ",
           input_unit := some "MWh",
           tolerance := some (2, 1 / 100) }
  else if mid = "grid_export_energy" then
    some { method := "energy",
           prompt := some "Reverse Active Energy (MWh) [press Enter to skip]: ",
           input_unit := some "MWh",
           tolerance := some (2, 1 / 100) }
  else none

/-- `FALLBACK_METRICS` in source order. -/
def FALLBACK_METRICS : List (String × List (String × Int)) :=
  [("meter_power", [("SG50RS", 5600)]),
   ("grid_import_energy", [("SG50RS", 5098)]),
   ("grid_export_energy", [("SG50RS", 5094)])]

/-! ### build_modbus_definitions.py — data model and pipeline -/

/-- The `read` sub-dict of a metric. -/
structure ReadSpec where
  function : String
  words : Int
  type : String
  scale : Rat
deriving DecidableEq, Repr

/-- A metric definition. `models` is the insertion-ordered
model-to-register mapping (every entry of the Python per-model dict always
carries an integer `register`); `default_register` is the optional
`default.register` field. -/
structure Metric where
  id : String
  name : String
  unit : Option String
  category : Option String
  default_register : Option Int
  models : List (String × Int)
  read : ReadSpec
  discovery : Option Discovery
deriving DecidableEq, Repr

/-- `metric["models"].setdefault(model, {})["register"] = register` on the
insertion-ordered mapping: overwrite the register of an existing model in
place, else append the new model. -/
def setRegister : List (String × Int) → String → Int → List (String × Int)
  | [], model, reg => [(model, reg)]
  | p :: rest, model, reg =>
    if p.1 = model then (p.1, reg) :: rest else p :: setRegister rest model reg

/-- `metrics.setdefault(mid, dflt)` followed by an in-place mutation `f`
of the entry: apply `f` to the existing entry for `mid`, else append
`f dflt`. -/
def updateMetric : List Metric → String → Metric → (Metric → Metric) → List Metric
  | [], _, dflt, f => [f dflt]
  | m :: rest, mid, dflt, f =>
    if m.id = mid then f m :: rest else m :: updateMetric rest mid dflt f

/-- One source row of the metric-catalog script (raw CSV strings;
columns the script reads with `row[...]` are plain, those read with
`row.get(...)` are optional). -/
structure Row where
  name : String
  data_type : String
  register_type : String
  address_start : Option String := none
  address_end : Option String := none
  scale_factor : Option String := none
  unit : Option String := none
deriving Repr

/-- `int(address_start) if address_start else None`, with `ValueError`
giving `None`. -/
def rowRegister (row : Row) : Option Int :=
  match row.address_start with
  | none => none
  | some s => if s = "" then none else pyParseInt s

/-- The word-count computation: `max(words, int(address_end) - register
+ 1)` when the end address is present and parses, else the table
default. -/
def computeWords (default_words register : Int) (address_end : Option String) : Int :=
  match address_end with
  | none => default_words
  | some s =>
    if s = "" then default_words
    else
      match pyParseInt s with
      | none => default_words
      | some e => max default_words (e - register + 1)

/-- The scale-factor computation: `float(scale_raw)` when present and
parseable, else `1.0`. -/
def computeScale (scale_factor : Option String) : Rat :=
  match scale_factor with
  | none => 1
  | some s => if s = "" then 1 else (pyParseFloat s).getD 1

/-- The register-kind classification of the metric catalog:
`"input" if row["register_type"].strip() == "3X" else "holding"`. -/
def metricRegisterFunction (register_type : String) : String :=
  if pyStrip register_type = "3X" then "input" else "holding"

/-- The per-row body of the first loop of `build_definitions`. -/
def processRow (model : String) (ms : List Metric) (row : Row) : List Metric :=
  match NUMERIC_TYPES (pyStrUpper (pyStrip row.data_type)) with
  | none => ms
  | some tw =>
    match rowRegister row with
    | none => ms
    | some register =>
      let metric_id := sanitise_metric_id row.name
      if metric_id = "" then ms
      else
        let engineering_unit := base_unit (pyStrip (row.unit.getD ""))
        let fresh : Metric :=
          { id := metric_id,
            name := pyStrip row.name,
            unit := if engineering_unit = "" then none else some engineering_unit,
            category := if engineering_unit = "" then none else classify_unit engineering_unit,
            default_register := none,
            models := [],
            read :=
              { function := metricRegisterFunction row.register_type,
                words := computeWords tw.2 register row.address_end,
                type := tw.1,
                scale := computeScale row.scale_factor },
            discovery := none }
        updateMetric ms metric_id fresh
          (fun m => { m with models := setRegister m.models model register })

/-- The first loop of `build_definitions` over all configured tables
(each table is a model name with its rows, as in `CSV_DEFINITIONS`). -/
def buildFromTables (tables : List (String × List Row)) : List Metric :=
  tables.foldl (fun ms t => t.2.foldl (processRow t.1) ms) []

/-- The hand-authored metric created when a fallback identifier is absent
from the merged catalog. -/
def fallbackDefault (mid : String) : Metric :=
  { id := mid,
    name := pyTitle ⟨mid.data.map (fun c => if c = '_' then ' ' else c)⟩,
    unit := some (if containsChars "power".data mid.data then "W" else "kWh"),
    category := some (if containsChars "power".data mid.data then "power" else "energy"),
    default_register := none,
    models := [],
    read :=
      { function := "input",
        words := if mid = "meter_power" then 1 else 2,
        type := if mid = "meter_power" then "int16" else "uint32le",
        scale := if mid = "meter_power" then 1 else 1 / 10 },
    discovery := none }

/-- The second loop of `build_definitions`: merge the fallback override
table into the metric collection. -/
def applyFallbacks (fallbacks : List (String × List (String × Int)))
    (ms : List Metric) : List Metric :=
  fallbacks.foldl
    (fun ms fb =>
      updateMetric ms fb.1 (fallbackDefault fb.1)
        (fun m =>
          fb.2.foldl (fun m mr => { m with models := setRegister m.models mr.1 mr.2 }) m))
    ms

/-- The final loop of `build_definitions`: compute `default.register`
from the first model in insertion order (every model entry carries an
integer register, so the `isinstance` guard of the source always holds),
then attach the discovery policy. -/
def finalizeMetric (m : Metric) : Metric :=
  { m with
    default_register := m.models.head?.map (fun p => p.2),
    discovery :=
      match SPECIAL_DISCOVERY m.id with
      | some d => some d
      | none =>
        match m.category with
        | some c => DISCOVERY_BY_CATEGORY c
        | none => none }

/-- Sort order of the output metric list: ascending by identifier
(Python `sorted(..., key=lambda m: m["id"])`). -/
def metricLE (a b : Metric) : Prop := lexLeChars a.id.data b.id.data = true

instance : DecidableRel metricLE := fun a b =>
  inferInstanceAs (Decidable (lexLeChars a.id.data b.id.data = true))

/-- The versioned output document of the metric catalog. -/
structure MetricsOutput where
  version : Nat
  metrics : List Metric
deriving Repr

/-- `build_definitions`, parametric in the input tables and the fallback
override table (the script instantiates the latter with
`FALLBACK_METRICS`). -/
def build_definitions (tables : List (String × List Row))
    (fallbacks : List (String × List (String × Int))) : MetricsOutput :=
  { version := 1,
    metrics :=
      List.insertionSort metricLE
        ((applyFallbacks fallbacks (buildFromTables tables)).map finalizeMetric) }

/-! ### build_register_defaults.py -/

/-- One raw CSV row of the register-defaults script; absent columns are
`none`. -/
structure RegRow where
  name : Option String := none
  no : Option String := none
  address_start : Option String := none
  address_end : Option String := none
  data_type : Option String := none
  data_range : Option String := none
  unit : Option String := none
  scale_factor : Option String := none
  register_type : Option String := none
  note : Option String := none
  source_version : Option String := none
deriving Repr

/-- The value normalization of `load_rows`, `(value or "").strip()`,
combined with `dict.get` (an absent column behaves as the empty
string). -/
def normV (v : Option String) : String := pyStrip (v.getD "")

/-- `x or None`: empty string becomes `none`. -/
def optOfStr (s : String) : Option String := if s = "" then none else some s

/-- `parse_float` of the source composed with the value normalization of
`load_rows`: falsy gives `1.0`, a parse failure gives `1.0`. -/
def parse_float (v : Option String) : Rat :=
  let s := normV v
  if s = "" then 1 else (pyParseFloat s).getD 1

def startsWith4 (s : String) : Bool :=
  match s.data with
  | [] => false
  | c :: _ => c == '4'

/-- The register-kind classification of the register catalog:
`(row.get("register_type") or "3X").upper()` starting with `"4"` gives a
holding register, anything else an input register. -/
def register_kind (register_type : Option String) : String :=
  let r := normV register_type
  let rt := if r = "" then "3X" else r
  if startsWith4 (pyStrUpper rt) then "holding" else "input"

/-- `sanitize_key`: lower-case, then map the separator punctuation to a
space and `%` to `" percent "`, character by character (the sequential
`str.replace` calls of the source never feed one replacement's output
into an earlier replacement, so they are a single character-wise map). -/
def sanitizeKeyChar (c : Char) : List Char :=
  let lc := pyLowerChar c
  if lc = '–' ∨ lc = '—' ∨ lc = '/' ∨ lc = '-' ∨ lc = '(' ∨ lc = ')' ∨ lc = '.' ∨
      lc = ',' ∨ lc = ':' ∨ lc = ';' then [' ']
  else if lc = '%' then " percent ".data
  else [lc]

def flatMapChars (f : Char → List Char) : List Char → List Char
  | [] => []
  | c :: rest => f c ++ flatMapChars f rest

def sanitize_key (s : String) : String := ⟨flatMapChars sanitizeKeyChar s.data⟩

def isLowerAlnum (c : Char) : Bool :=
  decide ((97 ≤ c.toNat ∧ c.toNat ≤ 122) ∨ (48 ≤ c.toNat ∧ c.toNat ≤ 57))

/-- Model of `re.sub(r"[^a-z0-9]+", "_", s)`: each maximal run of
characters outside `[a-z0-9]` becomes a single underscore. -/
def subRuns : List Char → List Char
  | [] => []
  | c :: rest =>
    if isLowerAlnum c then c :: subRuns rest
    else '_' :: subRuns (rest.dropWhile (fun d => !isLowerAlnum d))
termination_by cs => cs.length
decreasing_by
  · simp only [List.length_cons]; omega
  · simp only [List.length_cons]
    have h : ∀ l : List Char, (l.dropWhile (fun d => !isLowerAlnum d)).length ≤ l.length := by
      intro l
      induction l with
      | nil => exact Nat.le_refl 0
      | cons a t ih =>
        rw [List.dropWhile_cons]
        split
        · exact Nat.le_succ_of_le ih
        · exact Nat.le_refl _
    have := h rest
    omega

/-- `slugify` on character lists: `sanitize_key`, collapse
non-alphanumeric runs to `_`, strip `_`, and substitute `"register"` for
an empty result. -/
def slugifyChars (cs : List Char) : List Char :=
  let r := stripU (subRuns (flatMapChars sanitizeKeyChar cs))
  if r = [] then "register".data else r

def slugify (s : String) : String := ⟨slugifyChars s.data⟩

/-- One entry of a register-catalog bucket. -/
structure RegisterEntry where
  id : String
  no : String
  name : String
  address : Int
  length : Int
  data_type : String
  data_range : Option String
  unit : Option String
  scale_factor : Rat
  register_type : String
  note : Option String
deriving DecidableEq, Repr

/-- Sort order of a register bucket: ascending by `(address, length)`
(Python `sort(key=lambda entry: (entry["address"], entry["length"]))`). -/
def regLE (a b : RegisterEntry) : Prop :=
  a.address < b.address ∨ (a.address = b.address ∧ a.length ≤ b.length)

instance : DecidableRel regLE := fun a b =>
  inferInstanceAs (Decidable (a.address < b.address ∨ (a.address = b.address ∧ a.length ≤ b.length)))

/-- One inverter-type bucket of the register catalog. -/
structure RegistersOutput where
  source_version : Option String
  registers : List RegisterEntry
deriving Repr

/-- The per-row step of `build_registers`: the accumulator is the entry
list so far and the `source_version` string (initially `""`). -/
def regStep (acc : List RegisterEntry × String) (row : RegRow) : List RegisterEntry × String :=
  let a := normV row.address_start
  if a = "" then acc
  else
    match pyParseInt a with
    | none => acc
    | some start =>
      let endStr := let e := normV row.address_end; if e = "" then a else e
      let endV := (pyParseInt endStr).getD start
      let sv := if acc.2 = "" then normV row.source_version else acc.2
      let entry : RegisterEntry :=
        { id := slugify (normV row.name),
          no := normV row.no,
          name := normV row.name,
          address := start,
          length := max 1 (endV - start + 1),
          data_type := pyStrUpper (normV row.data_type),
          data_range := optOfStr (normV row.data_range),
          unit := optOfStr (normV row.unit),
          scale_factor := parse_float row.scale_factor,
          register_type := register_kind row.register_type,
          note := optOfStr (normV row.note) }
      (acc.1 ++ [entry], sv)

/-- `build_registers` of the register-defaults script for one table. -/
def build_registers (rows : List RegRow) : RegistersOutput :=
  let res := rows.foldl regStep ([], "")
  { source_version := optOfStr res.2,
    registers := List.insertionSort regLE res.1 }

/-! ### Derived notions the theorems use -/

/-- Two metrics that agree on every field except the `models` mapping. -/
def sameExceptModels (a b : Metric) : Prop :=
  a.id = b.id ∧ a.name = b.name ∧ a.unit = b.unit ∧ a.category = b.category
    ∧ a.default_register = b.default_register ∧ a.read = b.read ∧ a.discovery = b.discovery

/-- The six data types the specification declares. -/
def DECLARED_READ_TYPES : List String :=
  ["uint16", "int16", "uint32", "int32", "uint64", "float32"]

def ReadTypeOK (m : Metric) : Prop :=
  m.read.type ∈ DECLARED_READ_TYPES ∨ m.read.type = "uint32le"

/-- No two adjacent underscores. -/
def noUU (a b : Char) : Prop := ¬(a = '_' ∧ b = '_')

/-- The canonical form shared by the outputs of both identifier
generators: only `[a-z0-9_]` characters, no underscore runs, no leading
or trailing underscore. -/
def CanonId (cs : List Char) : Prop :=
  (∀ c ∈ cs, isIdChar c = true) ∧ List.Chain' noUU cs
    ∧ cs.head? ≠ some '_' ∧ cs.getLast? ≠ some '_'

/-! ### Concrete inputs used by the claims -/

def c6RowA : Row :=
  { name := "Grid Power", data_type := "S16", register_type := "3X",
    address_start := some "100" }

def c6RowB : Row :=
  { name := "Grid - Power", data_type := "U32", register_type := "4X",
    address_start := some "200" }

/-- A row of model SG50RS whose display name already derives the
identifier `meter_power`, at address 1234. -/
def c3Row : Row :=
  { name := "Meter Power", data_type := "S16", register_type := "3X",
    address_start := some "1234" }

/-- The example row of the specification: `{name:"Meter Active Power",
address_start:5600, address_end:5600, data_type:"S16",
register_type:"3X", unit:"kW"}`. -/
def c1Row : Row :=
  { name := "Meter Active Power", data_type := "S16", register_type := "3X",
    address_start := some "5600", address_end := some "5600", unit := some "kW" }

def c1Tables : List (String × List Row) := [("SG50RS", [c1Row])]

/-- The fallback override table of the example: `{meter_power:
{SG50RS: 5600}}`. -/
def c1Fallbacks : List (String × List (String × Int)) := [("meter_power", [("SG50RS", 5600)])]

/-- The metric the example row actually produces: its identifier is
`meter_active_power`, because `sanitise_metric_id` keeps every word of
the display name. -/
def c1MeterActivePower : Metric :=
  { id := "meter_active_power",
    name := "Meter Active Power",
    unit := some "kW",
    category := some "power",
    default_register := some 5600,
    models := [("SG50RS", 5600)],
    read := { function := "input", words := 1, type := "int16", scale := 1 },
    discovery := some { method := "power" } }

/-- The metric the fallback override creates from scratch under the
identifier `meter_power`. -/
def c1MeterPower : Metric :=
  { id := "meter_power",
    name := "Meter Power",
    unit := some "W",
    category := some "power",
    default_register := some 5600,
    models := [("SG50RS", 5600)],
    read := { function := "input", words := 1, type := "int16", scale := 1 },
    discovery := some { method := "power",
                        prompt := some "Meter Active Power (kW) [press Enter to skip]: ",
                        input_unit := some "kW",
                        expected_range := some (-20000, 20000),
                        tolerance_watts := some 1500 } }

/-- C1, counterexample: the example row plus the fallback override do
not produce a single metric — the row derives the identifier
`meter_active_power`, so the catalog holds two metrics, and the
`meter_power` metric comes solely from the fallback override. -/
theorem c1_counterexample :
    (build_definitions c1Tables c1Fallbacks).metrics.length ≠ 1
    ∧ (build_definitions c1Tables c1Fallbacks).metrics.map (fun m => m.id)
        = ["meter_active_power", "meter_power"] := by
  decide

/-- C1 (amended): the example row from model SG50RS plus the fallback
override `{meter_power:{SG50RS:5600}}` produce two metrics —
`meter_active_power` from the row and `meter_power` created by the
override — and the `meter_power` metric has `read.type = int16`,
`read.words = 1`, `category = power`, `models.SG50RS.register = 5600`,
`default.register = 5600`, and a discovery policy with method `power`
and the authored prompt text. -/
theorem c1_row_plus_fallback :
    (build_definitions c1Tables c1Fallbacks).metrics = [c1MeterActivePower, c1MeterPower]
    ∧ c1MeterPower.read.type = "int16"
    ∧ c1MeterPower.read.words = 1
    ∧ c1MeterPower.category = some "power"
    ∧ c1MeterPower.models = [("SG50RS", 5600)]
    ∧ c1MeterPower.default_register = some 5600
    ∧ c1MeterPower.discovery.map (fun d => (d.method, d.prompt))
        = some ("power", some "Meter Active Power (kW) [press Enter to skip]: ") := by
  refine ⟨by decide, rfl, rfl, rfl, rfl, rfl, rfl⟩

/-! ### C2 — register-kind classification -/

/-- C2, counterexample: the two catalogs do not classify every
register-type value the same way — `"5X"` is a holding register to the
metric catalog and an input register to the register catalog. -/
theorem c2_counterexample :
    metricRegisterFunction "5X" = "holding"
    ∧ register_kind (some "5X") = "input"
    ∧ metricRegisterFunction "5X" ≠ register_kind (some "5X") := by
  decide

theorem startsWith4_iff (s : String) : startsWith4 s = true ↔ ∃ cs, s.data = '4' :: cs := by
  unfold startsWith4
  cases h : s.data with
  | nil => simp
  | cons c rest =>
    simp only [beq_iff_eq]
    constructor
    · intro hc; exact ⟨rest, by rw [hc]⟩
    · rintro ⟨cs, hcs⟩; exact (List.cons.injEq .. ▸ hcs).1

/-- C2 (amended): the two catalogs agree on the cases the spec names —
a register type that strips to `"3X"` is an input register in both, and
one whose stripped value begins with `"4"` is a holding register in
both — but the classifications are not the same function: the metric
catalog treats everything other than `"3X"` as holding, the register
catalog everything not beginning with `"4"` (after upper-casing) as
input. -/
theorem c2_register_kind_agreement :
    (∀ rt : String, pyStrip rt = "3X" →
      metricRegisterFunction rt = "input" ∧ register_kind (some rt) = "input")
    ∧ (∀ rt : String, startsWith4 (pyStrip rt) = true →
      metricRegisterFunction rt = "holding" ∧ register_kind (some rt) = "holding") := by
  constructor
  · intro rt h
    constructor
    · simp [metricRegisterFunction, h]
    · simp only [register_kind, normV, Option.getD, h]
      decide
  · intro rt h
    obtain ⟨cs, hcs⟩ := (startsWith4_iff _).1 h
    have hne : pyStrip rt ≠ "3X" := by
      intro heq
      rw [heq] at hcs
      exact absurd (List.cons.injEq .. ▸ hcs).1 (by decide)
    have hne' : pyStrip rt ≠ "" := by
      intro heq; rw [heq] at hcs; exact List.noConfusion hcs
    constructor
    · simp [metricRegisterFunction, hne]
    · simp only [register_kind, normV, Option.getD, if_neg hne']
      have : (pyStrUpper (pyStrip rt)).data = '4' :: cs.map pyUpperChar := by
        simp [pyStrUpper, hcs]
        decide
      rw [(startsWith4_iff _).2 ⟨cs.map pyUpperChar, this⟩]
      rfl

/-- C2, witness: the agreement theorem applied at `"3X"` and `"4X"`. -/
theorem c2_witness :
    (metricRegisterFunction "3X" = "input" ∧ register_kind (some "3X") = "input")
    ∧ (metricRegisterFunction "4X" = "holding" ∧ register_kind (some "4X") = "holding") :=
  ⟨c2_register_kind_agreement.1 "3X" (by decide),
   c2_register_kind_agreement.2 "4X" (by decide)⟩

/-! ### C6 — duplicate identifiers within one model: last row wins -/

/-- C6: when two rows of the same model's table derive the same
identifier, the later row's address overwrites the earlier one — the
final per-model register is the `address_start` of the last such row
processed. -/
theorem c6_last_wins (model : String) (row1 row2 : Row) (tw1 tw2 : String × Int)
    (r1 r2 : Int)
    (h1 : NUMERIC_TYPES (pyStrUpper (pyStrip row1.data_type)) = some tw1)
    (h2 : NUMERIC_TYPES (pyStrUpper (pyStrip row2.data_type)) = some tw2)
    (g1 : rowRegister row1 = some r1)
    (g2 : rowRegister row2 = some r2)
    (hid : sanitise_metric_id row2.name = sanitise_metric_id row1.name)
    (hne : sanitise_metric_id row1.name ≠ "") :
    (buildFromTables [(model, [row1, row2])]).map (fun m => m.models) = [[(model, r2)]] := by
  have hne2 : sanitise_metric_id row2.name ≠ "" := hid ▸ hne
  simp only [buildFromTables, List.foldl]
  simp only [processRow, h1, h2, g1, g2, if_neg hne, if_neg hne2]
  simp [updateMetric, hid, setRegister]

/-- C6, witness: two rows of model SG50RS both deriving `grid_power`;
the merged metric keeps the second row's address 200. -/
theorem c6_witness :
    (buildFromTables [("SG50RS", [c6RowA, c6RowB])]).map (fun m => m.models)
      = [[("SG50RS", 200)]] :=
  c6_last_wins "SG50RS" c6RowA c6RowB ("int16", 1) ("uint32", 2) 100 200
    (by decide) (by decide) (by decide) (by decide) (by decide) (by decide)

/-! ### C7 — emitted word length -/

/-- C7: the emitted word length is `max(table_default,
address_end - address_start + 1)` when the end address is present and
parses as an integer, and the table default otherwise (absent end
address, empty end address — which also fails integer parsing — or an
unparseable one). -/
theorem c7_word_length (dw r : Int) :
    computeWords dw r none = dw
    ∧ (∀ s : String, ∀ e : Int, pyParseInt s = some e →
        computeWords dw r (some s) = max dw (e - r + 1))
    ∧ (∀ s : String, pyParseInt s = none → computeWords dw r (some s) = dw) := by
  refine ⟨rfl, ?_, ?_⟩
  · intro s e h
    have hs : s ≠ "" := by
      intro hempty
      rw [hempty] at h
      exact Option.noConfusion h
    simp only [computeWords, if_neg hs, h]
  · intro s h
    by_cases hs : s = ""
    · simp [computeWords, hs]
    · simp only [computeWords, if_neg hs, h]

/-- C7, witness: at table default 1 and start address 5600, end address
`"5601"` gives `max 1 2` words and the unparseable end address `"x"`
gives the default 1. -/
theorem c7_witness :
    computeWords 1 5600 (some "5601") = max 1 (5601 - 5600 + 1)
    ∧ computeWords 1 5600 (some "x") = 1 :=
  ⟨(c7_word_length 1 5600).2.1 "5601" 5601 (by decide),
   (c7_word_length 1 5600).2.2 "x" (by decide)⟩

/-! ### C3 — frame effect of the fallback-override step -/

theorem sameExceptModels_refl (a : Metric) : sameExceptModels a a :=
  ⟨rfl, rfl, rfl, rfl, rfl, rfl, rfl⟩

theorem sameExceptModels_trans {a b c : Metric}
    (h1 : sameExceptModels a b) (h2 : sameExceptModels b c) : sameExceptModels a c := by
  obtain ⟨e1, e2, e3, e4, e5, e6, e7⟩ := h1
  obtain ⟨f1, f2, f3, f4, f5, f6, f7⟩ := h2
  exact ⟨e1.trans f1, e2.trans f2, e3.trans f3, e4.trans f4, e5.trans f5,
    e6.trans f6, e7.trans f7⟩

theorem forall₂_same (l : List Metric) : List.Forall₂ sameExceptModels l l := by
  induction l with
  | nil => exact List.Forall₂.nil
  | cons x xs ih => exact List.Forall₂.cons (sameExceptModels_refl x) ih

theorem length_le_updateMetric (ms : List Metric) (mid : String) (d : Metric)
    (f : Metric → Metric) : ms.length ≤ (updateMetric ms mid d f).length := by
  induction ms with
  | nil => simp [updateMetric]
  | cons m rest ih =>
    simp only [updateMetric]
    split
    · simp
    · simpa using ih

theorem updateMetric_frame (ms : List Metric) (mid : String) (d : Metric)
    (f : Metric → Metric) (hf : ∀ x, sameExceptModels x (f x)) :
    List.Forall₂ sameExceptModels ms ((updateMetric ms mid d f).take ms.length) := by
  induction ms with
  | nil => exact List.Forall₂.nil
  | cons m rest ih =>
    simp only [updateMetric]
    split
    · simpa [List.take_of_length_le] using List.Forall₂.cons (hf m) (forall₂_same rest)
    · exact List.Forall₂.cons (sameExceptModels_refl m) ih

theorem forall₂_take_trans : ∀ (a b c : List Metric), a.length ≤ b.length →
    List.Forall₂ sameExceptModels a (b.take a.length) →
    List.Forall₂ sameExceptModels b (c.take b.length) →
    List.Forall₂ sameExceptModels a (c.take a.length) := by
  intro a
  induction a with
  | nil => intro b c _ _ _; exact List.Forall₂.nil
  | cons x a' ih =>
    intro b c hlen hab hbc
    cases b with
    | nil => simp at hlen
    | cons y b' =>
      cases c with
      | nil =>
        simp only [List.take_nil] at hbc
        cases hbc
      | cons z c' =>
        simp only [List.take_cons, List.length_cons] at hab hbc ⊢
        cases hab with
        | cons hxy hab' =>
          cases hbc with
          | cons hyz hbc' =>
            exact List.Forall₂.cons (sameExceptModels_trans hxy hyz)
              (ih b' c' (by simpa using hlen) hab' hbc')

theorem foldSetRegisters_frame (l : List (String × Int)) (m : Metric) :
    sameExceptModels m
      (l.foldl (fun m mr => { m with models := setRegister m.models mr.1 mr.2 }) m) := by
  induction l generalizing m with
  | nil => exact sameExceptModels_refl m
  | cons x xs ih =>
    exact sameExceptModels_trans
      (⟨rfl, rfl, rfl, rfl, rfl, rfl, rfl⟩ :
        sameExceptModels m { m with models := setRegister m.models x.1 x.2 })
      (ih _)

/-- C3 (amended): the fallback-override step never replaces the
read-shape fields of a pre-existing metric, and leaves every field of a
pre-existing metric other than its `models` mapping unchanged; within
`models` an override sets the register of its model — appending the
model when it is missing but also overwriting the register of a model
that is already present (shown by the counterexample). -/
theorem c3_fallback_frame (fallbacks : List (String × List (String × Int)))
    (ms : List Metric) :
    ms.length ≤ (applyFallbacks fallbacks ms).length
    ∧ List.Forall₂ sameExceptModels ms ((applyFallbacks fallbacks ms).take ms.length) := by
  induction fallbacks generalizing ms with
  | nil =>
    refine ⟨Nat.le_refl _, ?_⟩
    show List.Forall₂ sameExceptModels ms (ms.take ms.length)
    rw [List.take_length]
    exact forall₂_same ms
  | cons fb rest ih =>
    have step1len := length_le_updateMetric ms fb.1 (fallbackDefault fb.1)
      (fun m => fb.2.foldl (fun m mr => { m with models := setRegister m.models mr.1 mr.2 }) m)
    have step1frame := updateMetric_frame ms fb.1 (fallbackDefault fb.1)
      (fun m => fb.2.foldl (fun m mr => { m with models := setRegister m.models mr.1 mr.2 }) m)
      (fun x => foldSetRegisters_frame fb.2 x)
    have hrest := ih (updateMetric ms fb.1 (fallbackDefault fb.1)
      (fun m => fb.2.foldl (fun m mr => { m with models := setRegister m.models mr.1 mr.2 }) m))
    refine ⟨Nat.le_trans step1len hrest.1, ?_⟩
    exact forall₂_take_trans _ _ _ step1len step1frame hrest.2

/-- C3, counterexample: with a source row that already put
`models.SG50RS.register = 1234` on the metric `meter_power`, the
fallback override step replaces that register with 5600 — it does not
only add missing per-model registers. -/
theorem c3_counterexample :
    (buildFromTables [("SG50RS", [c3Row])]).map (fun m => (m.id, m.models))
      = [("meter_power", [("SG50RS", 1234)])]
    ∧ (applyFallbacks FALLBACK_METRICS (buildFromTables [("SG50RS", [c3Row])])).map
        (fun m => (m.id, m.models))
      = [("meter_power", [("SG50RS", 5600)]),
         ("grid_import_energy", [("SG50RS", 5098)]),
         ("grid_export_energy", [("SG50RS", 5094)])]
    ∧ (1234 : Int) ≠ 5600 := by
  refine ⟨by decide, by decide, by decide⟩

/-! ### C4 — default.register is the first model's register -/

/-- C4: every metric of the output catalog has `default.register` equal
to the register of the first model in insertion order of its `models`
mapping (the first model encountered for that metric), and no
`default.register` when `models` is empty. -/
theorem c4_default_register_head (tables : List (String × List Row))
    (fallbacks : List (String × List (String × Int))) (m : Metric)
    (hm : m ∈ (build_definitions tables fallbacks).metrics) :
    m.default_register = m.models.head?.map (fun p => p.2) := by
  have hm' : m ∈ (applyFallbacks fallbacks (buildFromTables tables)).map finalizeMetric :=
    (List.perm_insertionSort metricLE _).mem_iff.1 hm
  obtain ⟨x, _, rfl⟩ := List.mem_map.1 hm'
  rfl

/-- C4, witness: the theorem applied to the `meter_power` metric of the
concrete catalog built from the example row and override. -/
theorem c4_witness :
    c1MeterPower.default_register = c1MeterPower.models.head?.map (fun p => p.2) :=
  c4_default_register_head c1Tables c1Fallbacks c1MeterPower (by decide)

/-! ### C5 — the set of read types in the output catalog -/

/-- C5, counterexample: building with no source rows at all, the two
fallback-created energy metrics carry `read.type = "uint32le"`, which is
not one of the six declared data types. -/
theorem c5_counterexample :
    (build_definitions [] FALLBACK_METRICS).metrics.map (fun m => (m.id, m.read.type))
      = [("grid_export_energy", "uint32le"),
         ("grid_import_energy", "uint32le"),
         ("meter_power", "int16")]
    ∧ ("uint32le" : String) ∉ DECLARED_READ_TYPES := by
  refine ⟨by decide, by decide⟩

theorem numeric_types_type_mem (tag : String) (tw : String × Int)
    (h : NUMERIC_TYPES tag = some tw) : tw.1 ∈ DECLARED_READ_TYPES := by
  unfold NUMERIC_TYPES at h
  split_ifs at h <;> (simp only [Option.some.injEq] at h; subst h; decide)

theorem updateMetric_mem_induct {P : Metric → Prop} :
    ∀ (ms : List Metric) (mid : String) (d : Metric) (f : Metric → Metric),
    (∀ x ∈ ms, P x) → (∀ x, P x → P (f x)) → P (f d) →
    ∀ m ∈ updateMetric ms mid d f, P m := by
  intro ms mid d f h hf hd
  induction ms with
  | nil =>
    intro m hm
    simp only [updateMetric, List.mem_singleton] at hm
    exact hm ▸ hd
  | cons x rest ih =>
    intro m hm
    simp only [updateMetric] at hm
    split at hm
    · rcases List.mem_cons.1 hm with h1 | h1
      · exact h1 ▸ hf x (h x (List.mem_cons_self x rest))
      · exact h m (List.mem_cons_of_mem x h1)
    · rcases List.mem_cons.1 hm with h1 | h1
      · exact h1 ▸ h x (List.mem_cons_self x rest)
      · exact ih (fun y hy => h y (List.mem_cons_of_mem x hy)) m h1

theorem processRow_readTypes (model : String) (row : Row) (ms : List Metric)
    (h : ∀ x ∈ ms, ReadTypeOK x) : ∀ m ∈ processRow model ms row, ReadTypeOK m := by
  intro m hm
  unfold processRow at hm
  rcases hNT : NUMERIC_TYPES (pyStrUpper (pyStrip row.data_type)) with _ | tw
  · rw [hNT] at hm; exact h m hm
  · rw [hNT] at hm
    rcases hreg : rowRegister row with _ | r
    · rw [hreg] at hm; exact h m hm
    · rw [hreg] at hm
      simp only at hm
      by_cases hid : sanitise_metric_id row.name = ""
      · rw [if_pos hid] at hm; exact h m hm
      · rw [if_neg hid] at hm
        refine updateMetric_mem_induct ms _ _ _ h ?_ ?_ m hm
        · intro x hx; exact hx
        · exact Or.inl (numeric_types_type_mem _ tw hNT)

theorem foldRows_readTypes (model : String) :
    ∀ (rows : List Row) (ms : List Metric), (∀ x ∈ ms, ReadTypeOK x) →
    ∀ m ∈ rows.foldl (processRow model) ms, ReadTypeOK m := by
  intro rows
  induction rows with
  | nil => intro ms h m hm; exact h m hm
  | cons row rest ih =>
    intro ms h m hm
    exact ih (processRow model ms row) (processRow_readTypes model row ms h) m hm

theorem buildFromTables_readTypes (tables : List (String × List Row)) :
    ∀ m ∈ buildFromTables tables, ReadTypeOK m := by
  unfold buildFromTables
  generalize hms : ([] : List Metric) = ms
  have h : ∀ x ∈ ms, ReadTypeOK x := by rw [← hms]; intro x hx; cases hx
  clear hms
  induction tables generalizing ms with
  | nil => exact h
  | cons t rest ih =>
    intro m hm
    exact ih (t.2.foldl (processRow t.1) ms) (foldRows_readTypes t.1 t.2 ms h) m hm

theorem applyFallbacks_readTypes :
    ∀ (fallbacks : List (String × List (String × Int))) (ms : List Metric),
    (∀ x ∈ ms, ReadTypeOK x) → ∀ m ∈ applyFallbacks fallbacks ms, ReadTypeOK m := by
  intro fallbacks
  induction fallbacks with
  | nil => intro ms h m hm; exact h m hm
  | cons fb rest ih =>
    intro ms h m hm
    refine ih _ ?_ m hm
    refine updateMetric_mem_induct ms fb.1 (fallbackDefault fb.1) _ h ?_ ?_
    · intro x hx
      have hread := (foldSetRegisters_frame fb.2 x).2.2.2.2.2.1
      unfold ReadTypeOK at hx ⊢
      rw [← hread]
      exact hx
    have hread := (foldSetRegisters_frame fb.2 (fallbackDefault fb.1)).2.2.2.2.2.1
    show ReadTypeOK _
    unfold ReadTypeOK
    rw [← hread]
    by_cases hmp : fb.1 = "meter_power"
    · left; simp [fallbackDefault, hmp, DECLARED_READ_TYPES]
    · right; simp [fallbackDefault, hmp]

/-- C5 (amended): every metric built from a source row has `read.type`
among the six declared data types; a metric created solely by a fallback
override has `read.type = "int16"` when its identifier is `meter_power`
and `read.type = "uint32le"` otherwise — so catalog-wide, `read.type` is
one of the six declared types or `"uint32le"`. -/
theorem c5_read_type_enum (tables : List (String × List Row))
    (fallbacks : List (String × List (String × Int))) (m : Metric)
    (hm : m ∈ (build_definitions tables fallbacks).metrics) :
    m.read.type ∈ DECLARED_READ_TYPES ∨ m.read.type = "uint32le" := by
  have hm' : m ∈ (applyFallbacks fallbacks (buildFromTables tables)).map finalizeMetric :=
    (List.perm_insertionSort metricLE _).mem_iff.1 hm
  obtain ⟨x, hx, rfl⟩ := List.mem_map.1 hm'
  exact applyFallbacks_readTypes fallbacks (buildFromTables tables)
    (buildFromTables_readTypes tables) x hx

/-- C5, witness: the amended theorem applied to the concrete catalog of
the example row and override. -/
theorem c5_witness :
    c1MeterPower.read.type ∈ DECLARED_READ_TYPES ∨ c1MeterPower.read.type = "uint32le" :=
  c5_read_type_enum c1Tables c1Fallbacks c1MeterPower (by decide)

/-! ### C8 — both outputs are sorted -/

theorem lexLeChars_total : ∀ as bs : List Char, lexLeChars as bs = true ∨ lexLeChars bs as = true := by
  intro as
  induction as with
  | nil => intro bs; exact Or.inl rfl
  | cons a as ih =>
    intro bs
    cases bs with
    | nil => exact Or.inr rfl
    | cons b bs =>
      by_cases hab : a = b
      · subst hab
        simpa [lexLeChars] using ih bs
      · rcases lt_or_gt_of_ne hab with hlt | hgt
        · exact Or.inl (by simp [lexLeChars, hab, hlt])
        · exact Or.inr (by simp [lexLeChars, Ne.symm hab, hgt])

theorem lexLeChars_trans : ∀ as bs cs : List Char,
    lexLeChars as bs = true → lexLeChars bs cs = true → lexLeChars as cs = true := by
  intro as
  induction as with
  | nil => intro bs cs _ _; rfl
  | cons a as ih =>
    intro bs cs h1 h2
    cases bs with
    | nil => exact absurd h1 (by simp [lexLeChars])
    | cons b bs =>
      cases cs with
      | nil => exact absurd h2 (by simp [lexLeChars])
      | cons c cs =>
        by_cases hab : a = b <;> by_cases hbc : b = c
        · subst hab; subst hbc
          simp only [lexLeChars, if_pos rfl] at h1 h2 ⊢
          exact ih bs cs h1 h2
        · subst hab
          simp only [lexLeChars, if_neg hbc] at h2 ⊢
          exact h2
        · subst hbc
          simp only [lexLeChars, if_neg hab] at h1 ⊢
          exact h1
        · simp only [lexLeChars, if_neg hab, decide_eq_true_eq] at h1
          simp only [lexLeChars, if_neg hbc, decide_eq_true_eq] at h2
          have hac : a < c := lt_trans h1 h2
          simp [lexLeChars, ne_of_lt hac, hac]

/-- C8: the metric catalog's metrics list is sorted ascending by
identifier, and every register-catalog bucket is sorted ascending by the
`(address, length)` pair. -/
theorem c8_outputs_sorted :
    (∀ (tables : List (String × List Row)) (fallbacks : List (String × List (String × Int))),
      List.Sorted metricLE (build_definitions tables fallbacks).metrics)
    ∧ ∀ rows : List RegRow, List.Sorted regLE (build_registers rows).registers := by
  constructor
  · intro tables fallbacks
    haveI : IsTotal Metric metricLE := ⟨fun a b => lexLeChars_total a.id.data b.id.data⟩
    haveI : IsTrans Metric metricLE := ⟨fun _ _ _ h1 h2 => lexLeChars_trans _ _ _ h1 h2⟩
    exact List.sorted_insertionSort metricLE _
  · intro rows
    haveI : IsTotal RegisterEntry regLE := by
      refine ⟨fun a b => ?_⟩
      unfold regLE
      rcases lt_trichotomy a.address b.address with h | h | h
      · exact Or.inl (Or.inl h)
      · rcases le_total a.length b.length with hl | hl
        · exact Or.inl (Or.inr ⟨h, hl⟩)
        · exact Or.inr (Or.inr ⟨h.symm, hl⟩)
      · exact Or.inr (Or.inl h)
    haveI : IsTrans RegisterEntry regLE := by
      refine ⟨fun a b c h1 h2 => ?_⟩
      unfold regLE at h1 h2 ⊢
      rcases h1 with h1 | ⟨h1e, h1l⟩ <;> rcases h2 with h2 | ⟨h2e, h2l⟩
      · exact Or.inl (lt_trans h1 h2)
      · exact Or.inl (h2e ▸ h1)
      · exact Or.inl (h1e ▸ h2)
      · exact Or.inr ⟨h1e.trans h2e, le_trans h1l h2l⟩
    exact List.sorted_insertionSort regLE _

/-! ### C10 — the unreachable `kΩ` entry of the unit-category table -/

theorem toNat_ofNat_letter (n : Nat) (h1 : 97 ≤ n) (h2 : n ≤ 122) :
    (Char.ofNat n).toNat = n := by
  have hv : n < 55296 ∨ 57343 < n ∧ n < 1114112 := by omega
  simp only [Char.ofNat, dif_pos hv, Char.ofNatAux, Char.toNat]
  rfl

/-- No character lower-cases to the uppercase `Ω`. -/
theorem pyLowerChar_ne_Omega (c : Char) : pyLowerChar c ≠ 'Ω' := by
  unfold pyLowerChar
  split_ifs with h1 h2
  · intro heq
    have hn := congrArg Char.toNat heq
    rw [toNat_ofNat_letter (c.toNat + 32) (by omega) (by omega)] at hn
    have hO : ('Ω' : Char).toNat = 937 := by decide
    omega
  · intro heq; exact absurd heq (by decide)
  · exact h2

theorem lookupStr_mem : ∀ (l : List (String × String)) (key v : String),
    lookupStr l key = some v → (key, v) ∈ l := by
  intro l
  induction l with
  | nil => intro key v h; exact Option.noConfusion h
  | cons p rest ih =>
    intro key v h
    unfold lookupStr at h
    split_ifs at h with hk
    · rcases p with ⟨pk, pv⟩
      obtain rfl : pv = v := Option.some.inj h
      exact hk ▸ List.mem_cons_self _ _
    · exact List.mem_cons_of_mem p (ih key v h)

/-- C10: a unit whose trailing symbol run is `kΩ` gets no category from
the classifier, even though the table holds a `kΩ` entry mapping to
`resistance`: the classifier lower-cases its key (`kΩ` becomes `kω`), so
the `kΩ` entry can never be hit and only a unit lower-casing to `kohm`
reaches the resistance category. -/
theorem c10_unit_classifier :
    (∀ u : String, base_unit u = "kΩ" → classify_unit (base_unit u) = none)
    ∧ lookupStr UNIT_CATEGORY "kΩ" = some "resistance"
    ∧ (∀ u : String, classify_unit u = some "resistance" → pyStrLower u = "kohm") := by
  refine ⟨?_, by decide, ?_⟩
  · intro u h
    rw [h]
    decide
  · intro u h
    have hmem := lookupStr_mem UNIT_CATEGORY (pyStrLower u) "resistance" h
    simp only [UNIT_CATEGORY, List.mem_cons, Prod.mk.injEq, List.not_mem_nil, or_false] at hmem
    rcases hmem with ⟨hk, hv⟩ | hmem
    · exact absurd hv (by decide)
    · rcases hmem with ⟨hk, hv⟩ | hmem
      · exact absurd hv (by decide)
      · rcases hmem with ⟨hk, hv⟩ | hmem
        · exact absurd hv (by decide)
        · rcases hmem with ⟨hk, hv⟩ | hmem
          · exact absurd hv (by decide)
          · rcases hmem with ⟨hk, hv⟩ | hmem
            · exact absurd hv (by decide)
            · rcases hmem with ⟨hk, hv⟩ | hmem
              · exact absurd hv (by decide)
              · rcases hmem with ⟨hk, hv⟩ | hmem
                · exact absurd hv (by decide)
                · rcases hmem with ⟨hk, hv⟩ | hmem
                  · exact absurd hv (by decide)
                  · rcases hmem with ⟨hk, hv⟩ | hmem
                    · exact absurd hv (by decide)
                    · rcases hmem with ⟨hk, hv⟩ | hmem
                      · exact absurd hv (by decide)
                      · rcases hmem with ⟨hk, hv⟩ | hmem
                        · exact absurd hv (by decide)
                        · rcases hmem with ⟨hk, hv⟩ | hmem
                          · exact absurd hv (by decide)
                          · rcases hmem with ⟨hk, hv⟩ | hmem
                            · exact absurd hv (by decide)
                            · rcases hmem with ⟨hk, hv⟩ | hmem
                              · exact absurd hv (by decide)
                              · rcases hmem with ⟨hk, hv⟩ | hmem
                                · exact absurd hv (by decide)
                                · rcases hmem with ⟨hk, hv⟩ | hmem
                                  · exact absurd hv (by decide)
                                  · rcases hmem with ⟨hk, hv⟩ | hmem
                                    · exact absurd hv (by decide)
                                    · rcases hmem with ⟨hk, hv⟩ | ⟨hk, hv⟩
                                      · exfalso
                                        have hΩ : 'Ω' ∈ (pyStrLower u).data := by
                                          rw [hk]; decide
                                        obtain ⟨c, _, hc⟩ := List.mem_map.1 hΩ
                                        exact pyLowerChar_ne_Omega c hc
                                      · exact hk

/-- C10, witness: the classifier at the raw unit `0.1kΩ` (whose trailing
run is `kΩ`) and the hypothesis of the only-kohm clause at `KOHM`. -/
theorem c10_witness :
    classify_unit (base_unit "0.1kΩ") = none ∧ pyStrLower "KOHM" = "kohm" :=
  ⟨c10_unit_classifier.1 "0.1kΩ" (by decide),
   c10_unit_classifier.2.2 "KOHM" (by decide)⟩

/-! ### C9 — identifier generation is idempotent -/

theorem dropWhile_eq_self_of_head {p : Char → Bool} {l : List Char}
    (h : ∀ x, l.head? = some x → p x = false) : l.dropWhile p = l := by
  cases l with
  | nil => rfl
  | cons a t =>
    have := h a rfl
    simp [List.dropWhile_cons, this]

theorem stripWith_eq_self_of_ends {p : Char → Bool} {l : List Char}
    (h1 : ∀ x, l.head? = some x → p x = false)
    (h2 : ∀ x, l.getLast? = some x → p x = false) : stripWith p l = l := by
  unfold stripWith
  rw [dropWhile_eq_self_of_head h1]
  rw [dropWhile_eq_self_of_head (fun x hx => h2 x (l.head?_reverse ▸ hx))]
  exact l.reverse_reverse

theorem mem_of_getLast?_eq : ∀ (l : List Char) (x : Char), l.getLast? = some x → x ∈ l := by
  intro l
  induction l with
  | nil => intro x hx; exact Option.noConfusion hx
  | cons a t ih =>
    intro x hx
    cases t with
    | nil => simp_all
    | cons b t' =>
      rw [List.getLast?_cons_cons] at hx
      exact List.mem_cons_of_mem a (ih x hx)

theorem stripWith_eq_self_of_all {p : Char → Bool} {l : List Char}
    (h : ∀ c ∈ l, p c = false) : stripWith p l = l := by
  apply stripWith_eq_self_of_ends
  · intro x hx
    apply h
    cases l with
    | nil => exact Option.noConfusion hx
    | cons a t => exact (Option.some.inj hx) ▸ List.mem_cons_self a t
  · intro x hx
    exact h x (mem_of_getLast?_eq l x hx)

theorem dropWhile_head_false (p : Char → Bool) :
    ∀ l : List Char, ∀ x, (l.dropWhile p).head? = some x → p x = false := by
  intro l
  induction l with
  | nil => intro x hx; exact Option.noConfusion hx
  | cons a t ih =>
    intro x hx
    rw [List.dropWhile_cons] at hx
    by_cases hpa : p a = true
    · rw [if_pos hpa] at hx; exact ih x hx
    · rw [if_neg hpa] at hx
      rw [← Option.some.inj hx]
      exact Bool.not_eq_true _ ▸ hpa

theorem stripWith_pre_dropWhile (p : Char → Bool) (l : List Char) :
    stripWith p l <+: l.dropWhile p := by
  unfold stripWith
  rw [← List.reverse_suffix]
  rw [List.reverse_reverse]
  exact ⟨_, List.takeWhile_append_dropWhile ..⟩

theorem stripWith_between (p : Char → Bool) (l : List Char) : stripWith p l <:+: l := by
  have h : l.dropWhile p <:+ l := ⟨l.takeWhile p, l.takeWhile_append_dropWhile p⟩
  have h2 := List.IsPrefix.isInfix (stripWith_pre_dropWhile p l)
  have h3 := List.IsSuffix.isInfix h
  exact List.IsInfix.trans h2 h3

theorem head?_of_pre {l₁ l₂ : List Char} (h : l₁ <+: l₂) {x : Char}
    (hx : l₁.head? = some x) : l₂.head? = some x := by
  obtain ⟨t, rfl⟩ := h
  cases l₁ with
  | nil => exact Option.noConfusion hx
  | cons a t' => simp_all

theorem stripWith_head (p : Char → Bool) (l : List Char) :
    ∀ x, (stripWith p l).head? = some x → p x = false := by
  intro x hx
  exact dropWhile_head_false p l x (head?_of_pre (stripWith_pre_dropWhile p l) hx)

theorem stripWith_last (p : Char → Bool) (l : List Char) :
    ∀ x, (stripWith p l).getLast? = some x → p x = false := by
  intro x hx
  unfold stripWith at hx
  rw [List.getLast?_reverse] at hx
  exact dropWhile_head_false p (l.dropWhile p).reverse x hx

theorem map_id_of {f : Char → Char} : ∀ {l : List Char}, (∀ c ∈ l, f c = c) → l.map f = l := by
  intro l
  induction l with
  | nil => intro _; rfl
  | cons a t ih =>
    intro h
    rw [List.map_cons, h a (List.mem_cons_self a t), ih (fun c hc => h c (List.mem_cons_of_mem a hc))]

theorem collapseU_subset : ∀ l : List Char, ∀ c ∈ collapseU l, c ∈ l
  | [] => by intro c hc; exact absurd hc (by simp [collapseU])
  | [a] => by intro c hc; simpa [collapseU] using hc
  | a :: b :: rest => by
    intro c hc
    by_cases h : a = '_' ∧ b = '_'
    · rw [collapseU, if_pos h] at hc
      exact List.mem_cons_of_mem a (collapseU_subset (b :: rest) c hc)
    · rw [collapseU, if_neg h] at hc
      rcases List.mem_cons.1 hc with h1 | h1
      · exact h1 ▸ List.mem_cons_self a _
      · exact List.mem_cons_of_mem a (collapseU_subset (b :: rest) c h1)

theorem collapseU_cons : ∀ (b : Char) (rest : List Char), ∃ t, collapseU (b :: rest) = b :: t
  | _, [] => ⟨[], rfl⟩
  | b, c :: rest => by
    by_cases h : b = '_' ∧ c = '_'
    · obtain ⟨t, ht⟩ := collapseU_cons c rest
      refine ⟨t, ?_⟩
      rw [collapseU, if_pos h, ht, h.1, h.2]
    · exact ⟨collapseU (c :: rest), by rw [collapseU, if_neg h]⟩

theorem chain'_collapseU : ∀ l : List Char, List.Chain' noUU (collapseU l)
  | [] => by simp [collapseU]
  | [a] => by simp [collapseU]
  | a :: b :: rest => by
    have ih := chain'_collapseU (b :: rest)
    by_cases h : a = '_' ∧ b = '_'
    · rw [collapseU, if_pos h]
      exact ih
    · rw [collapseU, if_neg h]
      obtain ⟨t, ht⟩ := collapseU_cons b rest
      rw [ht] at ih ⊢
      exact List.chain'_cons.2 ⟨h, ih⟩

theorem collapseU_eq_self : ∀ l : List Char, List.Chain' noUU l → collapseU l = l
  | [], _ => rfl
  | [_], _ => rfl
  | a :: b :: rest, h => by
    have hab : noUU a b := (List.chain'_cons.1 h).1
    rw [collapseU, if_neg hab, collapseU_eq_self (b :: rest) (List.chain'_cons.1 h).2]

theorem idchar_not_ws (c : Char) (h : isIdChar c = true) : isPyWs c = false := by
  cases hw : isPyWs c
  · rfl
  · exfalso
    unfold isPyWs at hw
    simp only [Bool.or_eq_true, beq_iff_eq] at hw
    rcases hw with ((((hc | hc) | hc) | hc) | hc) | hc <;> (subst hc; revert h; decide)

theorem pyLowerChar_fixed (c : Char) (h : isIdChar c = true) : pyLowerChar c = c := by
  by_cases hΩ : c = 'Ω'
  · subst hΩ; revert h; decide
  · have h1 : ¬(65 ≤ c.toNat ∧ c.toNat ≤ 90) := by
      unfold isIdChar at h
      rw [decide_eq_true_eq] at h
      rcases h with h | h | h
      · omega
      · omega
      · subst h; decide
    unfold pyLowerChar
    rw [if_neg h1, if_neg hΩ]

theorem replaceSepChar_fixed (c : Char) (h : isIdChar c = true) : replaceSepChar c = c := by
  have hn : ¬(c = ' ' ∨ c = '-') := by
    rintro (rfl | rfl) <;> (revert h; decide)
  rw [replaceSepChar, if_neg hn]

theorem sanitiseChars_canon (cs : List Char) : CanonId (sanitiseChars cs) := by
  have h0 : ∀ c ∈ (((stripWith isPyWs cs).map pyLowerChar).map replaceSepChar).filter isIdChar,
      isIdChar c = true := fun c hc => (List.mem_filter.1 hc).2
  have h1mem : ∀ c ∈ collapseU ((((stripWith isPyWs cs).map pyLowerChar).map
      replaceSepChar).filter isIdChar), isIdChar c = true :=
    fun c hc => h0 c (collapseU_subset _ c hc)
  refine ⟨?_, ?_, ?_, ?_⟩
  · intro c hc
    exact h1mem c (List.Sublist.mem hc (List.IsInfix.sublist (stripWith_between (· == '_') _)))
  · exact List.Chain'.infix (chain'_collapseU _) (stripWith_between _ _)
  · intro hbad
    have := stripWith_head (· == '_') _ '_' hbad
    simp at this
  · intro hbad
    have := stripWith_last (· == '_') _ '_' hbad
    simp at this

theorem sanitiseChars_eq_self (cs : List Char) (h : CanonId cs) : sanitiseChars cs = cs := by
  obtain ⟨hmem, hchain, hhead, hlast⟩ := h
  unfold sanitiseChars stripU
  rw [stripWith_eq_self_of_all (fun c hc => idchar_not_ws c (hmem c hc))]
  rw [map_id_of (fun c hc => pyLowerChar_fixed c (hmem c hc))]
  rw [map_id_of (fun c hc => replaceSepChar_fixed c (hmem c hc))]
  rw [List.filter_eq_self.2 hmem]
  rw [collapseU_eq_self cs hchain]
  apply stripWith_eq_self_of_ends
  · intro x hx
    have hne : x ≠ '_' := fun he => hhead (he ▸ hx)
    simpa using hne
  · intro x hx
    have hne : x ≠ '_' := fun he => hlast (he ▸ hx)
    simpa using hne

theorem idchar_split (c : Char) (h : isIdChar c = true) : isLowerAlnum c = true ∨ c = '_' := by
  unfold isIdChar at h
  unfold isLowerAlnum
  rw [decide_eq_true_eq] at h
  rw [decide_eq_true_eq]
  tauto

theorem alnum_idchar (c : Char) (h : isLowerAlnum c = true) : isIdChar c = true := by
  unfold isLowerAlnum at h
  unfold isIdChar
  rw [decide_eq_true_eq] at h
  rw [decide_eq_true_eq]
  tauto

theorem alnum_ne_underscore (c : Char) (h : isLowerAlnum c = true) : c ≠ '_' := by
  intro he; subst he; revert h; decide

theorem subRuns_mem : ∀ l : List Char, ∀ c ∈ subRuns l, isIdChar c = true := by
  intro l
  induction l using subRuns.induct with
  | case1 => intro c hc; simp [subRuns] at hc
  | case2 c rest hc ih =>
    intro x hx
    simp only [subRuns] at hx
    rw [if_pos hc] at hx
    rcases List.mem_cons.1 hx with h1 | h1
    · exact h1 ▸ alnum_idchar c hc
    · exact ih x h1
  | case3 c rest hc ih =>
    intro x hx
    simp only [subRuns] at hx
    rw [if_neg hc] at hx
    rcases List.mem_cons.1 hx with h1 | h1
    · subst h1; decide
    · exact ih x h1

theorem subRuns_chain : ∀ l : List Char, List.Chain' noUU (subRuns l) := by
  intro l
  induction l using subRuns.induct with
  | case1 => simp [subRuns]
  | case2 c rest hc ih =>
    simp only [subRuns]
    rw [if_pos hc, List.chain'_cons']
    refine ⟨?_, ih⟩
    intro y _
    exact fun hcu => (alnum_ne_underscore c hc) hcu.1
  | case3 c rest hc ih =>
    simp only [subRuns]
    rw [if_neg hc, List.chain'_cons']
    refine ⟨?_, ih⟩
    intro y hy
    cases hr : rest.dropWhile (fun d => !isLowerAlnum d) with
    | nil =>
      rw [hr] at hy
      simp [subRuns] at hy
    | cons d t =>
      have hd : isLowerAlnum d = true := by
        have hfalse := dropWhile_head_false (fun d => !isLowerAlnum d) rest d (by rw [hr]; rfl)
        simpa using hfalse
      rw [hr] at hy
      simp only [subRuns] at hy
      rw [if_pos hd] at hy
      have hyd : d = y := by simpa using hy
      subst hyd
      exact fun hcu => (alnum_ne_underscore d hd) hcu.2

theorem subRuns_eq_self : ∀ l : List Char, (∀ c ∈ l, isIdChar c = true) →
    List.Chain' noUU l → l.getLast? ≠ some '_' → subRuns l = l
  | [], _, _, _ => by simp [subRuns]
  | c :: rest, hmem, hchain, hlast => by
    by_cases hc : isLowerAlnum c = true
    · have hlast' : rest.getLast? ≠ some '_' := by
        cases rest with
        | nil => simp
        | cons b t => rw [List.getLast?_cons_cons] at hlast; exact hlast
      have ih := subRuns_eq_self rest (fun x hx => hmem x (List.mem_cons_of_mem c hx))
        hchain.tail hlast'
      simp only [subRuns]
      rw [if_pos hc, ih]
    · have hcu : c = '_' := (idchar_split c (hmem c (List.mem_cons_self c rest))).resolve_left hc
      subst hcu
      cases rest with
      | nil => exact absurd (by simp) hlast
      | cons d t =>
        have hd_ne : noUU '_' d := (List.chain'_cons.1 hchain).1
        have hd : d ≠ '_' := fun he => hd_ne ⟨rfl, he⟩
        have hdal : isLowerAlnum d = true :=
          (idchar_split d (hmem d (List.mem_cons_of_mem _ (List.mem_cons_self d t)))).resolve_right hd
        have hdrop : (d :: t).dropWhile (fun x => !isLowerAlnum x) = d :: t := by
          rw [List.dropWhile_cons]
          simp [hdal]
        have ih := subRuns_eq_self (d :: t)
          (fun x hx => hmem x (List.mem_cons_of_mem _ hx))
          (List.chain'_cons.1 hchain).2
          (by rw [List.getLast?_cons_cons] at hlast; exact hlast)
        simp only [subRuns]
        rw [if_neg hc, hdrop, ih]

theorem sanitizeKeyChar_fixed (c : Char) (h : isIdChar c = true) : sanitizeKeyChar c = [c] := by
  have hl := pyLowerChar_fixed c h
  simp only [sanitizeKeyChar, hl]
  have h1 : ¬(c = '–' ∨ c = '—' ∨ c = '/' ∨ c = '-' ∨ c = '(' ∨ c = ')' ∨ c = '.'
      ∨ c = ',' ∨ c = ':' ∨ c = ';') := by
    rintro (rfl | rfl | rfl | rfl | rfl | rfl | rfl | rfl | rfl | rfl) <;> (revert h; decide)
  have h2 : ¬(c = '%') := by rintro rfl; revert h; decide
  rw [if_neg h1, if_neg h2]

theorem flatMapChars_id {f : Char → List Char} :
    ∀ {l : List Char}, (∀ c ∈ l, f c = [c]) → flatMapChars f l = l := by
  intro l
  induction l with
  | nil => intro _; rfl
  | cons a t ih =>
    intro h
    show f a ++ flatMapChars f t = a :: t
    rw [h a (List.mem_cons_self a t), ih (fun c hc => h c (List.mem_cons_of_mem a hc))]
    rfl

theorem slugChars_canon (cs : List Char) :
    CanonId (stripU (subRuns (flatMapChars sanitizeKeyChar cs))) := by
  refine ⟨?_, ?_, ?_, ?_⟩
  · intro c hc
    exact subRuns_mem _ c (List.Sublist.mem hc (List.IsInfix.sublist (stripWith_between (· == '_') _)))
  · exact List.Chain'.infix (subRuns_chain _) (stripWith_between _ _)
  · intro hbad
    have := stripWith_head (· == '_') _ '_' hbad
    simp at this
  · intro hbad
    have := stripWith_last (· == '_') _ '_' hbad
    simp at this

theorem slugChars_eq_self (cs : List Char) (h : CanonId cs) :
    stripU (subRuns (flatMapChars sanitizeKeyChar cs)) = cs := by
  obtain ⟨hmem, hchain, hhead, hlast⟩ := h
  rw [flatMapChars_id (fun c hc => sanitizeKeyChar_fixed c (hmem c hc))]
  rw [subRuns_eq_self cs hmem hchain hlast]
  unfold stripU
  apply stripWith_eq_self_of_ends
  · intro x hx
    have hne : x ≠ '_' := fun he => hhead (he ▸ hx)
    simpa using hne
  · intro x hx
    have hne : x ≠ '_' := fun he => hlast (he ▸ hx)
    simpa using hne

theorem chain'_of_no_underscore : ∀ cs : List Char, (∀ c ∈ cs, c ≠ '_') →
    List.Chain' noUU cs := by
  intro cs
  induction cs with
  | nil => intro _; simp
  | cons a t ih =>
    intro h
    rw [List.chain'_cons']
    exact ⟨fun y _ hcu => h a (List.mem_cons_self a t) hcu.1,
      ih (fun c hc => h c (List.mem_cons_of_mem a hc))⟩

theorem register_canon : CanonId "register".data :=
  ⟨by decide, chain'_of_no_underscore _ (by decide), by decide, by decide⟩

theorem slugifyChars_idem (cs : List Char) : slugifyChars (slugifyChars cs) = slugifyChars cs := by
  by_cases hr : stripU (subRuns (flatMapChars sanitizeKeyChar cs)) = []
  · have h1 : slugifyChars cs = "register".data := by
      simp only [slugifyChars]
      rw [if_pos hr]
    rw [h1]
    simp only [slugifyChars]
    rw [slugChars_eq_self _ register_canon]
    rw [if_neg (by decide)]
  · have h1 : slugifyChars cs = stripU (subRuns (flatMapChars sanitizeKeyChar cs)) := by
      simp only [slugifyChars]
      rw [if_neg hr]
    rw [h1]
    simp only [slugifyChars]
    rw [slugChars_eq_self _ (slugChars_canon cs)]
    rw [if_neg hr]

/-- C9: both identifier generators are idempotent — applying
`sanitise_metric_id` (metric catalog) or `slugify` (register catalog)
twice gives the same result as applying it once, for every input
string. -/
theorem c9_idempotent (s : String) :
    sanitise_metric_id (sanitise_metric_id s) = sanitise_metric_id s
    ∧ slugify (slugify s) = slugify s := by
  constructor
  · show (⟨sanitiseChars (sanitiseChars s.data)⟩ : String) = ⟨sanitiseChars s.data⟩
    rw [sanitiseChars_eq_self _ (sanitiseChars_canon s.data)]
  · show (⟨slugifyChars (slugifyChars s.data)⟩ : String) = ⟨slugifyChars s.data⟩
    rw [slugifyChars_idem]

end Winet2
